import Mathlib

/- Verification of the persistent server store of the server-room repository
   (src/server_store.rs, src/server.rs, src/config.rs, src/error.rs,
   src/actionable_error.rs), shallowly embedded in Lean.

   Modelling conventions:
   - `f64` scores are modelled as real numbers; the transcendental frecency
     update is therefore noncomputable, while everything structural stays
     executable.
   - The `servers` HashMap of `ServerStore` is modelled as the list of its
     entries in iteration order.  Throughout the code the key of an entry is
     the server's `name` field, so the key is kept implicit.  HashMap
     iteration order is arbitrary, which theorems reflect by quantifying over
     permutations of the entry list.
   - The JSON persistence layer is modelled at the level of the list of raw
     server records handed to serde: `serde_json::to_string_pretty` is a
     deterministic injective function of that list, so equality of record
     lists is equality of file bytes.
   - `fs` access and process spawning are abstracted as function parameters;
     a Rust `panic!`/`expect` is modelled as an explicit `panic` outcome. -/

namespace ServerRoom

/-- Persisted server record (`RawServer` in src/server.rs and src/config.rs):
name, start command and frecency score, with no directory field. -/
structure RawServer where
  name : String
  start_command : String
  frecency : ℝ

/-- In-memory server (`Server` in src/server.rs): the persisted fields plus the
project directory, computed as `servers_dir/name`. -/
structure Server where
  name : String
  dir : String
  start_command : String
  frecency : ℝ

/-- `Server::new` (src/server.rs:32): a fresh server starts with frecency 0 and
its directory derived from the configured servers directory and its name. -/
def Server.new (servers_dir name start_command : String) : Server :=
  ⟨name, servers_dir ++ "/" ++ name, start_command, 0⟩

/-- `Server::from_raw` (src/server.rs:42): rebuild the in-memory server from a
persisted record, recomputing the directory from the name. -/
def Server.from_raw (servers_dir : String) (raw : RawServer) : Server :=
  ⟨raw.name, servers_dir ++ "/" ++ raw.name, raw.start_command, raw.frecency⟩

/-- `Server::into_raw` (src/server.rs:52): strip a server to its persisted
fields. -/
def Server.into_raw (s : Server) : RawServer :=
  ⟨s.name, s.start_command, s.frecency⟩

/-- The `servers` map of `ServerStore` (src/server_store.rs:18), as its entry
list in iteration order. -/
abbrev Store := List Server

/-- The keys of the servers map (every entry is keyed by its name). -/
def storeNames (store : Store) : List String :=
  store.map Server.name

/-- `HashMap::contains_key` keyed by name. -/
def containsName (store : Store) (n : String) : Bool :=
  store.any (fun t => t.name == n)

/-- `HashMap::insert` keyed by name: replace the entry with that name if one
exists, otherwise add the entry. -/
def insertServer (store : Store) (s : Server) : Store :=
  if containsName store s.name then
    store.map (fun t => if t.name == s.name then s else t)
  else
    store ++ [s]

/-- `ServerStore::get_one` (src/server_store.rs:250): look the server up by
name. -/
def get_one (store : Store) (server_name : String) : Option Server :=
  store.find? (fun t => t.name == server_name)

/-- `ServerStore::get_all` (src/server_store.rs:254): all servers, in map
iteration order. -/
def get_all (store : Store) : List Server :=
  store

/-- Comparator used by the custom serializer (src/server_store.rs:53):
`server1.name.cmp(&server2.name)`, i.e. ordering servers by name. -/
def serverNameLE (a b : Server) : Prop :=
  a.name ≤ b.name

/-- Strict version of the serializer's name ordering. -/
def serverNameLT (a b : Server) : Prop :=
  a.name < b.name

instance : DecidableRel serverNameLE :=
  fun a b => inferInstanceAs (Decidable (a.name ≤ b.name))

instance : IsTotal Server serverNameLE :=
  ⟨fun a b => le_total a.name b.name⟩

instance : IsTrans Server serverNameLE :=
  ⟨fun _ _ _ h₁ h₂ => le_trans h₁ h₂⟩

instance : IsAntisymm Server serverNameLT :=
  ⟨fun _ _ h₁ h₂ => absurd h₂ (lt_asymm h₁)⟩

/-- Custom `Serialize for ServerStore` (src/server_store.rs:45-58): collect the
map's values, sort them lexicographically by name (`Vec::sort_by` is a stable
sort, modelled by the stable insertion sort, which any stable sort equals), and
keep their persisted fields.  The resulting record list is what
`serde_json::to_string_pretty` renders. -/
def serializeServers (store : Store) : List RawServer :=
  (store.insertionSort serverNameLE).map Server.into_raw

/-- Custom `Deserialize for ServerStore` (src/server_store.rs:28-42): rebuild
the map keyed by `server.name`; collecting from the iterator inserts the
entries one after the other. -/
def deserializeServers (servers_dir : String) (raws : List RawServer) : Store :=
  raws.foldl (fun acc r => insertServer acc (Server.from_raw servers_dir r)) []

/-- Outcome of a store method: a returned value, or a Rust `panic!` (from
`expect`/`unwrap_or_else`) aborting the process with a message. -/
inductive OpResult (α : Type) where
  | ok : α → OpResult α
  | panic : String → OpResult α

/-- Content of the backing file `servers.json` as `load` finds it. -/
inductive FileContent where
  | absent : FileContent
  | malformed : FileContent
  | parsed : List RawServer → FileContent

/-- `ServerStore::load` (src/server_store.rs:62-69):
`fs::read_to_string("servers.json").expect("Error reading server store")`
followed by `serde_json::from_str(..).expect("Error parsing JSON string")`.
A missing file panics, unparseable content panics, otherwise the record list
is deserialized into the map. -/
def load (servers_dir : String) (file : FileContent) : OpResult Store :=
  match file with
  | FileContent.absent => OpResult.panic ("Error reading server store")
  | FileContent.malformed => OpResult.panic ("Error parsing JSON string")
  | FileContent.parsed records => OpResult.ok (deserializeServers servers_dir records)

/-- `FRECENCY_HALF_LIFE_MICROS` (src/server_store.rs:118): thirty days in
microseconds. -/
noncomputable def FRECENCY_HALF_LIFE_MICROS : ℝ :=
  30 * 24 * 60 * 60 * 1000000

/-- `DECAY` (src/server_store.rs:119): `LN_2 / FRECENCY_HALF_LIFE_MICROS`. -/
noncomputable def DECAY : ℝ :=
  Real.log 2 / FRECENCY_HALF_LIFE_MICROS

/-- `SCORE_INCREASE_PER_RUN` (src/server_store.rs:120). -/
noncomputable def SCORE_INCREASE_PER_RUN : ℝ :=
  1

/-- The frecency update performed by `start_server` (src/server_store.rs:126-128):
recover the raw score, add the per-run increase, store the renormalized log. -/
noncomputable def frecencyUpdate (frecency now_decay : ℝ) : ℝ :=
  let score := Real.exp (frecency - now_decay)
  let new_score := score + SCORE_INCREASE_PER_RUN
  Real.log new_score + now_decay

/-- The spec's frecency constant, written from its words: DECAY = ln 2 divided
by a 30-day half-life expressed in microseconds. -/
noncomputable def specDECAY : ℝ :=
  Real.log 2 / (30 * 24 * 60 * 60 * 1000000)

/-- The spec's update formula, written from its words: the new frecency is
ln(exp(stored_frecency − now_decay) + 1.0) + now_decay. -/
noncomputable def specNewFrecency (stored_frecency now_decay : ℝ) : ℝ :=
  Real.log (Real.exp (stored_frecency - now_decay) + 1.0) + now_decay

/-- Result of one `&self` store method: the receiver after the call (the Rust
methods take `&self`, so the caller's store is returned as the method leaves
it), the store snapshots flushed to disk in order, and the outcome. -/
structure MethodCall (α : Type) where
  receiver : Store
  writes : List (List RawServer)
  result : OpResult α

/-- `ServerStore::add_server` (src/server_store.rs:89-95): clone the store,
construct a fresh server from the project name and start command, insert it
without any duplicate check, and flush the clone. -/
def add_server (servers_dir : String) (store : Store)
    (project_name start_command : String) : MethodCall Store :=
  let new_store := insertServer store (Server.new servers_dir project_name start_command)
  MethodCall.mk store [serializeServers new_store] (OpResult.ok new_store)

/-- `ServerStore::set_server_start_command` (src/server_store.rs:98-106): clone
the store, look the server up by name — panicking with "Invalid server name
{name}" when it is absent — overwrite its start command, and flush the clone. -/
def set_server_start_command (store : Store) (server_name start_command : String) :
    MethodCall Store :=
  match get_one store server_name with
  | none =>
      MethodCall.mk store [] (OpResult.panic ("Invalid server name " ++ server_name))
  | some _ =>
      let new_store := store.map (fun t =>
        if t.name == server_name then { t with start_command := start_command } else t)
      MethodCall.mk store [serializeServers new_store] (OpResult.ok new_store)

/-- `ServerStore::remove_server` (src/server_store.rs:134-139): clone the
store, remove the entry keyed by the given server's name, and flush the clone
whether or not the entry existed. -/
def remove_server (store : Store) (server : Server) : MethodCall Store :=
  let new_store := store.filter (fun t => !(t.name == server.name))
  MethodCall.mk store [serializeServers new_store] (OpResult.ok new_store)

/-- Project record (src/project.rs), used by one error payload. -/
structure Project where
  name : String
  dir : String

/-- `ApplicationError` (src/error.rs), with `PathBuf` payloads as strings. -/
inductive ApplicationError where
  | ProjectDirs : ApplicationError
  | ReadConfig : String → ApplicationError
  | ParseConfig : String → ApplicationError
  | WriteStore : String → ApplicationError
  | ParseStore : String → ApplicationError
  | StringifyStore : ApplicationError
  | ReadServersDir : String → ApplicationError
  | ReadPackageJson : String → ApplicationError
  | MalformedPackageJson : String → String → ApplicationError
  | NonExistentScript : Project → String → ApplicationError
  | RunScript : String → ApplicationError
  | NonExistentServer : String → ApplicationError
  | DuplicateServer : String → ApplicationError
  | NoNewProjects : String → ApplicationError
  | NoServers : ApplicationError
  | InquireError : ApplicationError
  | InvalidCommand : String → ApplicationError

/-- `Server::start` (src/server.rs:67-77): execute the start command in the
project directory through the shell, abstracted as `exec command dir` returning
the child's exit status, or `none` when the command could not be executed at
all.  Any exit status is success; failure to execute reports
`RunScript(command)`. -/
def Server.start (exec : String → String → Option Int) (s : Server) :
    Except ApplicationError Unit :=
  match exec s.start_command s.dir with
  | some _ => Except.ok ()
  | none => Except.error (ApplicationError.RunScript s.start_command)

/-- Externally visible effects of `start_server`, in program order. -/
inductive Event where
  | flushed : List RawServer → Event
  | ran : String → String → Event

/-- Full observation of one `ServerStore::start_server` call: the receiver
after the call, the effects in order, the result of the delegated run action
(`none` when the method panicked before reaching it), and the outcome. -/
structure StartCall where
  receiver : Store
  events : List Event
  runResult : Option (Except ApplicationError Unit)
  result : OpResult Store

/-- The updated servers map built inside `start_server`
(src/server_store.rs:110-128): the entry for `server_name` gets the new
frecency computed at `now_decay = now_micros * DECAY`. -/
noncomputable def frecencyStore (store : Store) (server_name : String)
    (now_micros : ℕ) : Store :=
  store.map (fun t =>
    if t.name == server_name then
      { t with frecency := frecencyUpdate t.frecency ((now_micros : ℝ) * DECAY) }
    else t)

/-- `ServerStore::start_server` (src/server_store.rs:109-132): clone the store,
look the server up by name — panicking with "Invalid server name {name}" when
absent — update its frecency, flush the clone, then run the updated server's
start command.  The wall clock is abstracted as `now_micros`, the microseconds
since the epoch that `SystemTime::now()` reports. -/
noncomputable def start_server (exec : String → String → Option Int)
    (store : Store) (server_name : String) (now_micros : ℕ) : StartCall :=
  match get_one store server_name with
  | none =>
      StartCall.mk store [] none (OpResult.panic ("Invalid server name " ++ server_name))
  | some _ =>
      match get_one (frecencyStore store server_name now_micros) server_name with
      | none =>
          StartCall.mk store
            [Event.flushed (serializeServers (frecencyStore store server_name now_micros))]
            none (OpResult.panic ("called `Option::unwrap()` on a `None` value"))
      | some server =>
          StartCall.mk store
            [Event.flushed (serializeServers (frecencyStore store server_name now_micros)),
             Event.ran server.start_command server.dir]
            (some (Server.start exec server))
            (OpResult.ok (frecencyStore store server_name now_micros))

/-- File metadata as `fs::metadata` reports it, reduced to what the code
inspects. -/
structure Metadata where
  is_file : Bool

/-- `ErrorCode` (src/actionable_error.rs:29-40). -/
inductive ErrorCode where
  | ReadServersDir : ErrorCode
  | ReadPackageJson : ErrorCode
  | ParsePackageJson : ErrorCode
  | MissingStartScript : ErrorCode
  | NonExistentServer : ErrorCode
  | DuplicateProject : ErrorCode
  | NoNewServers : ErrorCode
  | NoServers : ErrorCode
  | InquireError : ErrorCode
  | InvalidCommand : ErrorCode
deriving DecidableEq

/-- `ActionableError` (src/actionable_error.rs:4-8). -/
structure ActionableError where
  code : ErrorCode
  message : String
  suggestion : String

/-- `ServerStore::validate_new_project_name` (src/server_store.rs:142-176):
check that `{servers_dir}/{project_name}/package.json` exists and is a file
(reporting `ReadPackageJson` otherwise), then reject a project name that is
already a key of the servers map with `DuplicateProject`.  The filesystem is
abstracted as `meta`, mapping a path to its metadata when it exists. -/
def validate_new_project_name (meta : String → Option Metadata)
    (servers_dir : String) (store : Store) (project_name : String) :
    Except ActionableError Unit :=
  match meta (servers_dir ++ "/" ++ project_name ++ "/package.json") with
  | none =>
      Except.error (ActionableError.mk ErrorCode.ReadPackageJson
        ("Could not read " ++ servers_dir ++ "/" ++ project_name ++ "/package.json")
        ("Try creating a new npm project in this project directory.\n\n    cd " ++
          servers_dir ++ "/" ++ project_name ++ "\n    npm init"))
  | some metadata =>
      if !metadata.is_file then
        Except.error (ActionableError.mk ErrorCode.ReadPackageJson
          ("Could not read " ++ servers_dir ++ "/" ++ project_name ++ "/package.json")
          ("Try making sure that " ++ servers_dir ++ "/" ++ project_name ++
            "/package.json is a file."))
      else if containsName store project_name then
        Except.error (ActionableError.mk ErrorCode.DuplicateProject
          ("Project " ++ project_name ++ " already exists")
          ("Try editing the existing project instead.\n\n    server-room edit --server " ++
            project_name))
      else
        Except.ok ()

/- Helper lemmas shared by the claim theorems. -/

/-- The frecency update strictly increases the stored score: the raw score
gains 1 before the logarithm is taken, and log is strictly monotone. -/
theorem frecencyUpdate_gt (f nd : ℝ) : f < frecencyUpdate f nd := by
  show f < Real.log (Real.exp (f - nd) + SCORE_INCREASE_PER_RUN) + nd
  unfold SCORE_INCREASE_PER_RUN
  have h1 : Real.exp (f - nd) < Real.exp (f - nd) + 1 := by linarith
  have h2 := Real.log_lt_log (Real.exp_pos (f - nd)) h1
  rw [Real.log_exp] at h2
  linarith

/-- Looking a name up after updating the entries with that name, where the
update preserves names, finds the updated entry. -/
theorem get_one_map_update (store : Store) (n : String) (upd : Server → Server)
    (hname : ∀ t, (upd t).name = t.name) :
    get_one (store.map (fun t => if t.name == n then upd t else t)) n
      = (get_one store n).map upd := by
  induction store with
  | nil => rfl
  | cons a as ih =>
    simp only [List.map_cons, get_one] at ih ⊢
    by_cases ha : (a.name == n) = true
    · have hu : ((upd a).name == n) = true := by rw [hname a]; exact ha
      rw [if_pos ha]
      rw [@List.find?_cons_of_pos Server (fun t => t.name == n) (upd a)
        (as.map fun t => if t.name == n then upd t else t) hu]
      rw [@List.find?_cons_of_pos Server (fun t => t.name == n) a as ha]
      rfl
    · have ha' : (a.name == n) = false := by simpa using ha
      rw [if_neg (by simp [ha'])]
      rw [@List.find?_cons_of_neg Server (fun t => t.name == n) a
        (as.map fun t => if t.name == n then upd t else t) (by simp [ha'])]
      rw [@List.find?_cons_of_neg Server (fun t => t.name == n) a as (by simp [ha'])]
      exact ih

/-- A name that the map does not contain is not found. -/
theorem get_one_eq_none_of_not_contains (store : Store) (n : String)
    (h : containsName store n = false) : get_one store n = none := by
  simp only [containsName, List.any_eq_false, beq_iff_eq] at h
  simp only [get_one, List.find?_eq_none, beq_iff_eq]
  exact h

/-- Replacing the entries with a given name finds the replacement, provided
some entry had that name. -/
theorem get_one_map_replace (store : Store) (s : Server) :
    containsName store s.name = true →
    get_one (store.map (fun t => if t.name == s.name then s else t)) s.name = some s := by
  induction store with
  | nil => intro h; simp [containsName] at h
  | cons a as ih =>
    intro h
    simp only [List.map_cons, get_one] at ih ⊢
    by_cases ha : (a.name == s.name) = true
    · rw [if_pos ha]
      exact @List.find?_cons_of_pos Server (fun t => t.name == s.name) s
        (as.map fun t => if t.name == s.name then s else t) (by simp)
    · have ha' : (a.name == s.name) = false := by simpa using ha
      have h' : containsName as s.name = true := by
        simpa [containsName, ha'] using h
      rw [if_neg (by simp [ha'])]
      rw [@List.find?_cons_of_neg Server (fun t => t.name == s.name) a
        (as.map fun t => if t.name == s.name then s else t) (by simp [ha'])]
      exact ih h'

/-- Appending a server whose name is fresh makes it findable by name. -/
theorem get_one_append_self (store : Store) (s : Server)
    (h : containsName store s.name = false) :
    get_one (store ++ [s]) s.name = some s := by
  induction store with
  | nil => simp [get_one]
  | cons a as ih =>
    simp only [containsName, List.any_cons, Bool.or_eq_false_iff] at h
    have ha : (a.name == s.name) = false := h.1
    have h' : containsName as s.name = false := h.2
    simpa [get_one, List.cons_append, ha] using ih h'

/-- After a keyed insert, looking up the inserted server's name returns it. -/
theorem get_one_insertServer (store : Store) (s : Server) :
    get_one (insertServer store s) s.name = some s := by
  unfold insertServer
  by_cases hc : containsName store s.name = true
  · rw [if_pos hc]
    exact get_one_map_replace store s hc
  · have hc' : containsName store s.name = false := by simpa using hc
    rw [if_neg (by simp [hc'])]
    exact get_one_append_self store s hc'

/-- The frecency-updating map finds the updated server under its old name. -/
theorem get_one_frecencyStore (store : Store) (server_name : String)
    (now_micros : ℕ) (server : Server) (h : get_one store server_name = some server) :
    get_one (frecencyStore store server_name now_micros) server_name =
      some { server with
        frecency := frecencyUpdate server.frecency ((now_micros : ℝ) * DECAY) } := by
  unfold frecencyStore
  rw [get_one_map_update store server_name
    (fun t => { t with frecency := frecencyUpdate t.frecency ((now_micros : ℝ) * DECAY) })
    (fun t => rfl), h]
  rfl

/-- Unfolding of `start_server` when the name is present: update, flush, run. -/
theorem start_server_of_get_one (exec : String → String → Option Int) (store : Store)
    (server_name : String) (now_micros : ℕ) (server : Server)
    (h : get_one store server_name = some server) :
    start_server exec store server_name now_micros =
      StartCall.mk store
        [Event.flushed (serializeServers (frecencyStore store server_name now_micros)),
         Event.ran server.start_command server.dir]
        (some (Server.start exec { server with
          frecency := frecencyUpdate server.frecency ((now_micros : ℝ) * DECAY) }))
        (OpResult.ok (frecencyStore store server_name now_micros)) := by
  unfold start_server
  rw [h, get_one_frecencyStore store server_name now_micros server h]

/-- The receiver is returned unchanged by `start_server` (`&self` method). -/
theorem start_server_receiver (exec : String → String → Option Int) (store : Store)
    (server_name : String) (now_micros : ℕ) :
    (start_server exec store server_name now_micros).receiver = store := by
  unfold start_server
  cases ho : get_one store server_name with
  | none => rfl
  | some s =>
    cases hi : get_one (frecencyStore store server_name now_micros) server_name with
    | none => rfl
    | some s2 => rfl

/-- The receiver is returned unchanged by `set_server_start_command`. -/
theorem set_server_start_command_receiver (store : Store)
    (server_name start_command : String) :
    (set_server_start_command store server_name start_command).receiver = store := by
  unfold set_server_start_command
  cases ho : get_one store server_name with
  | none => rfl
  | some s => rfl

/-- Keyed inserts starting from an accumulator that contains none of the
incoming fresh, pairwise-distinct names just append the records in order. -/
theorem foldl_insert_fresh (servers_dir : String) :
    ∀ (rs : List RawServer) (acc : Store),
      (∀ r ∈ rs, containsName acc r.name = false) →
      (rs.map RawServer.name).Nodup →
      rs.foldl (fun acc2 r => insertServer acc2 (Server.from_raw servers_dir r)) acc
        = acc ++ rs.map (Server.from_raw servers_dir) := by
  intro rs
  induction rs with
  | nil => intro acc _ _; simp
  | cons r rs ih =>
    intro acc hfresh hnodup
    have hcr : containsName acc r.name = false := hfresh r (by simp)
    have hstep : insertServer acc (Server.from_raw servers_dir r)
        = acc ++ [Server.from_raw servers_dir r] := by
      unfold insertServer
      rw [if_neg]
      intro hcontra
      rw [show (Server.from_raw servers_dir r).name = r.name from rfl, hcr] at hcontra
      exact Bool.false_ne_true hcontra
    have hhead : r.name ∉ rs.map RawServer.name :=
      (List.nodup_cons.mp (by simpa using hnodup)).1
    rw [List.foldl_cons, hstep, ih (acc ++ [Server.from_raw servers_dir r]) ?fresh ?nodup]
    · simp
    case fresh =>
      intro r' hr'
      have hne : (r'.name == r.name) = false := by
        simp only [beq_eq_false_iff_ne, ne_eq]
        intro he
        exact hhead (he ▸ List.mem_map_of_mem RawServer.name hr')
      have h2 : containsName acc r'.name = false := hfresh r' (by simp [hr'])
      simp only [containsName, List.any_append, Bool.or_eq_false_iff]
      refine ⟨h2, ?_⟩
      simp only [List.any_cons, List.any_nil, Bool.or_false]
      rw [show (Server.from_raw servers_dir r).name = r.name from rfl]
      rw [show ((r.name : String) == r'.name) = (r'.name == r.name) from ?_]
      · exact hne
      · cases hb : (r'.name == r.name) with
        | true => rw [beq_iff_eq] at hb; simp [hb]
        | false => rw [beq_eq_false_iff_ne] at hb; simp [beq_eq_false_iff_ne, Ne.symm hb, hb]
    case nodup => exact (List.nodup_cons.mp (by simpa using hnodup)).2

/-- Deserializing a record list with pairwise-distinct names rebuilds exactly
those records, in order. -/
theorem deserialize_eq_map (servers_dir : String) (rs : List RawServer)
    (h : (rs.map RawServer.name).Nodup) :
    deserializeServers servers_dir rs = rs.map (Server.from_raw servers_dir) := by
  unfold deserializeServers
  rw [foldl_insert_fresh servers_dir rs [] (fun r _ => rfl) h]
  simp

/-- A sorted-by-name list whose names are pairwise distinct is strictly
sorted by name. -/
theorem sorted_lt_of_sorted_le (l : List Server) (hs : l.Sorted serverNameLE)
    (hn : (storeNames l).Nodup) : l.Sorted serverNameLT := by
  have hp : l.Pairwise (fun a b : Server => a.name ≠ b.name) := by
    exact List.pairwise_map.mp hn
  exact (hs.and hp).imp (fun h => lt_of_le_of_ne h.1 h.2)

/-- Permuted stores with pairwise-distinct names serialize identically: the
sort canonicalizes the arbitrary map iteration order. -/
theorem serialize_eq_of_perm (l₁ l₂ : Store) (hnodup : (storeNames l₁).Nodup)
    (hperm : l₁.Perm l₂) : serializeServers l₁ = serializeServers l₂ := by
  have hn₂ : (storeNames l₂).Nodup := (hperm.map Server.name).nodup_iff.mp hnodup
  have hp₁ : (l₁.insertionSort serverNameLE).Perm l₁ := List.perm_insertionSort _ _
  have hp₂ : (l₂.insertionSort serverNameLE).Perm l₂ := List.perm_insertionSort _ _
  have hs₁ : (l₁.insertionSort serverNameLE).Sorted serverNameLE :=
    List.sorted_insertionSort _ _
  have hs₂ : (l₂.insertionSort serverNameLE).Sorted serverNameLE :=
    List.sorted_insertionSort _ _
  have hsn₁ : (storeNames (l₁.insertionSort serverNameLE)).Nodup :=
    (hp₁.map Server.name).nodup_iff.mpr hnodup
  have hsn₂ : (storeNames (l₂.insertionSort serverNameLE)).Nodup :=
    (hp₂.map Server.name).nodup_iff.mpr hn₂
  have heq : l₁.insertionSort serverNameLE = l₂.insertionSort serverNameLE :=
    List.eq_of_perm_of_sorted (hp₁.trans (hperm.trans hp₂.symm))
      (sorted_lt_of_sorted_le _ hs₁ hsn₁) (sorted_lt_of_sorted_le _ hs₂ hsn₂)
  unfold serializeServers
  rw [heq]

/-- The serialized record list is always in (non-strict) lexicographic order
by name. -/
theorem serialize_sorted (store : Store) :
    (serializeServers store).Pairwise (fun a b : RawServer => a.name ≤ b.name) := by
  unfold serializeServers
  exact List.Pairwise.map Server.into_raw (fun a b hab => hab)
    (List.sorted_insertionSort serverNameLE store)

/-- Removing a name the map does not contain leaves the entry list unchanged. -/
theorem filter_eq_self_of_not_contains (store : Store) (n : String)
    (h : containsName store n = false) :
    store.filter (fun t => !(t.name == n)) = store := by
  rw [List.filter_eq_self]
  intro a ha
  simp only [containsName, List.any_eq_false, beq_iff_eq] at h
  simp [h a ha]

/-- Removing a present name from a map with pairwise-distinct keys shortens
the entry list by exactly one. -/
theorem filter_length_of_mem (n : String) :
    ∀ (store : Store), (storeNames store).Nodup →
      ∀ t ∈ store, t.name = n →
      (store.filter (fun u => !(u.name == n))).length + 1 = store.length := by
  intro store
  induction store with
  | nil => intro _ t ht _; exact absurd ht (List.not_mem_nil t)
  | cons a as ih =>
    intro hnodup t ht htn
    have hnd := List.nodup_cons.mp
      (show (a.name :: as.map Server.name).Nodup by simpa [storeNames] using hnodup)
    rcases List.mem_cons.mp ht with rfl | hts
    · have hfresh : containsName as n = false := by
        simp only [containsName, List.any_eq_false, beq_iff_eq]
        intro x hx he
        exact hnd.1 (by rw [htn]; exact he ▸ List.mem_map_of_mem Server.name hx)
      have hpa : (!(t.name == n)) = false := by simp [htn]
      simp only [List.filter_cons, hpa, Bool.false_eq_true, if_false]
      rw [filter_eq_self_of_not_contains as n hfresh]
      simp
    · have hane : t.name ≠ a.name := by
        intro he
        exact hnd.1 (by rw [← he, htn, ← htn]; exact List.mem_map_of_mem Server.name hts)
      have hpa : (!(a.name == n)) = true := by
        simp only [Bool.not_eq_true', beq_eq_false_iff_ne, ne_eq]
        intro he
        exact hane (by rw [htn, he])
      simp only [List.filter_cons, hpa, if_true]
      simp only [List.length_cons]
      have hrec := ih (by simpa [storeNames] using hnd.2) t hts htn
      omega

/- Claim theorems. -/

/-- C1: for every server present in the store, `start_server` updates its
stored frecency exactly by the specified algorithm: with
DECAY = ln 2 / (30 days in microseconds) and now_decay = now · DECAY, the new
frecency is ln(exp(old − now_decay) + 1.0) + now_decay. -/
theorem C1_start_server_stores_spec_frecency (exec : String → String → Option Int)
    (store : Store) (server_name : String) (now_micros : ℕ) (server : Server)
    (h : get_one store server_name = some server) :
    DECAY = specDECAY ∧
    ∃ new_store s',
      (start_server exec store server_name now_micros).result = OpResult.ok new_store ∧
      get_one new_store server_name = some s' ∧
      s'.frecency = specNewFrecency server.frecency ((now_micros : ℝ) * DECAY) := by
  refine ⟨rfl, frecencyStore store server_name now_micros,
    { server with frecency := frecencyUpdate server.frecency ((now_micros : ℝ) * DECAY) },
    ?_, get_one_frecencyStore store server_name now_micros server h, ?_⟩
  · rw [start_server_of_get_one exec store server_name now_micros server h]
  · show frecencyUpdate server.frecency ((now_micros : ℝ) * DECAY)
      = specNewFrecency server.frecency ((now_micros : ℝ) * DECAY)
    unfold frecencyUpdate specNewFrecency SCORE_INCREASE_PER_RUN
    norm_num

/-- C1 witness: the theorem applied to a concrete one-server store. -/
theorem C1_start_server_stores_spec_frecency_witness :
    get_one [Server.new ("d") ("alpha") ("ca")] ("alpha")
        = some (Server.new ("d") ("alpha") ("ca")) ∧
    (DECAY = specDECAY ∧
      ∃ new_store s',
        (start_server (fun _ _ => some 0) [Server.new ("d") ("alpha") ("ca")]
          ("alpha") 1000).result = OpResult.ok new_store ∧
        get_one new_store ("alpha") = some s' ∧
        s'.frecency = specNewFrecency (Server.new ("d") ("alpha") ("ca")).frecency
          (((1000 : ℕ) : ℝ) * DECAY)) :=
  ⟨rfl, C1_start_server_stores_spec_frecency (fun _ _ => some 0)
    [Server.new ("d") ("alpha") ("ca")] ("alpha") 1000 (Server.new ("d") ("alpha") ("ca")) rfl⟩

/-- C4: every `start_server` call on a present name strictly increases that
server's stored frecency relative to its value immediately before the call
(hence two immediately successive calls each strictly increase it). -/
theorem C4_start_server_strictly_increases_frecency (exec : String → String → Option Int)
    (store : Store) (server_name : String) (now_micros : ℕ) (server : Server)
    (h : get_one store server_name = some server) :
    ∃ new_store s',
      (start_server exec store server_name now_micros).result = OpResult.ok new_store ∧
      get_one new_store server_name = some s' ∧
      server.frecency < s'.frecency := by
  refine ⟨frecencyStore store server_name now_micros,
    { server with frecency := frecencyUpdate server.frecency ((now_micros : ℝ) * DECAY) },
    ?_, get_one_frecencyStore store server_name now_micros server h, ?_⟩
  · rw [start_server_of_get_one exec store server_name now_micros server h]
  · exact frecencyUpdate_gt server.frecency ((now_micros : ℝ) * DECAY)

/-- C4 witness: the theorem applied to a concrete one-server store. -/
theorem C4_start_server_strictly_increases_frecency_witness :
    get_one [Server.new ("d") ("alpha") ("ca")] ("alpha")
        = some (Server.new ("d") ("alpha") ("ca")) ∧
    (∃ new_store s',
      (start_server (fun _ _ => some 0) [Server.new ("d") ("alpha") ("ca")]
        ("alpha") 2000).result = OpResult.ok new_store ∧
      get_one new_store ("alpha") = some s' ∧
      (Server.new ("d") ("alpha") ("ca")).frecency < s'.frecency) :=
  ⟨rfl, C4_start_server_strictly_increases_frecency (fun _ _ => some 0)
    [Server.new ("d") ("alpha") ("ca")] ("alpha") 2000 (Server.new ("d") ("alpha") ("ca")) rfl⟩

/-- C2 counterexample: with a server named "foo" already in the store,
`add_server` for the name "foo" does not fail at all — it succeeds and
replaces the stored entry (its return type carries no error). -/
theorem C2_counterexample_duplicate_add_succeeds :
    (add_server ("d") [Server.new ("d") ("foo") ("old")] ("foo") ("new")).result =
      OpResult.ok [Server.new ("d") ("foo") ("new")] := rfl

/-- C2 (amended): `add_server` performs no duplicate validation — it always
succeeds, inserting (or overwriting) the entry, which `get_one` then returns;
duplicate detection lives in the separate `validate_new_project_name`, which
rejects an existing name with `DuplicateProject` and accepts a fresh one, and
no directory-duplication check exists since the directory is derived from the
name. -/
theorem C2_add_server_no_validation (meta : String → Option Metadata)
    (servers_dir : String) (store : Store) (project_name start_command : String)
    (hmeta : meta (servers_dir ++ "/" ++ project_name ++ "/package.json")
      = some (Metadata.mk true)) :
    (add_server servers_dir store project_name start_command).result =
      OpResult.ok (insertServer store (Server.new servers_dir project_name start_command)) ∧
    get_one (insertServer store (Server.new servers_dir project_name start_command))
        project_name = some (Server.new servers_dir project_name start_command) ∧
    (containsName store project_name = true →
      validate_new_project_name meta servers_dir store project_name =
        Except.error (ActionableError.mk ErrorCode.DuplicateProject
          ("Project " ++ project_name ++ " already exists")
          ("Try editing the existing project instead.\n\n    server-room edit --server " ++
            project_name))) ∧
    (containsName store project_name = false →
      validate_new_project_name meta servers_dir store project_name = Except.ok ()) := by
  refine ⟨rfl,
    get_one_insertServer store (Server.new servers_dir project_name start_command), ?_, ?_⟩
  · intro hc
    unfold validate_new_project_name
    rw [hmeta]
    simp [hc]
  · intro hc
    unfold validate_new_project_name
    rw [hmeta]
    simp [hc]

/-- C2 witness: the amended theorem applied to a store already holding "foo". -/
theorem C2_add_server_no_validation_witness :
    (fun _ : String => some (Metadata.mk true)) ("d" ++ "/" ++ "foo" ++ "/package.json")
        = some (Metadata.mk true) ∧
    ((add_server ("d") [Server.new ("d") ("foo") ("old")] ("foo") ("new")).result =
        OpResult.ok (insertServer [Server.new ("d") ("foo") ("old")]
          (Server.new ("d") ("foo") ("new"))) ∧
      get_one (insertServer [Server.new ("d") ("foo") ("old")] (Server.new ("d") ("foo") ("new")))
          ("foo") = some (Server.new ("d") ("foo") ("new")) ∧
      (containsName [Server.new ("d") ("foo") ("old")] ("foo") = true →
        validate_new_project_name (fun _ => some (Metadata.mk true)) ("d")
            [Server.new ("d") ("foo") ("old")] ("foo") =
          Except.error (ActionableError.mk ErrorCode.DuplicateProject
            ("Project " ++ "foo" ++ " already exists")
            ("Try editing the existing project instead.\n\n    server-room edit --server " ++
              "foo"))) ∧
      (containsName [Server.new ("d") ("foo") ("old")] ("foo") = false →
        validate_new_project_name (fun _ => some (Metadata.mk true)) ("d")
            [Server.new ("d") ("foo") ("old")] ("foo") = Except.ok ())) :=
  ⟨rfl, C2_add_server_no_validation (fun _ => some (Metadata.mk true)) ("d")
    [Server.new ("d") ("foo") ("old")] ("foo") ("new") rfl⟩

/-- C3 counterexample: `load` on an absent backing file does not succeed with
an empty store. -/
theorem C3_counterexample_load_absent_not_ok :
    load ("d") FileContent.absent ≠ OpResult.ok [] := by
  intro hcontra
  simp [load] at hcontra

/-- C3 (amended): `load` on an absent backing file is a fatal error — the
`expect` panics with "Error reading server store" — rather than yielding an
empty collection. -/
theorem C3_load_absent_is_fatal (servers_dir : String) :
    load servers_dir FileContent.absent = OpResult.panic ("Error reading server store") := rfl

/-- C7: with a server name that is not present, both
`set_server_start_command` and `start_server` panic with
"Invalid server name name" and flush nothing; neither returns the
`NonExistentServer` error (their return types carry no error value). -/
theorem C7_unknown_server_panics_without_flushing :
    set_server_start_command [] ("missing") ("cmd") =
      MethodCall.mk [] [] (OpResult.panic ("Invalid server name missing")) ∧
    start_server (fun _ _ => some 0) [] ("missing") 7 =
      StartCall.mk [] [] none (OpResult.panic ("Invalid server name missing")) :=
  ⟨rfl, rfl⟩

/-- C5: flushing any collection of servers and loading it back yields an
equivalent set of records — same names, directories, start commands and
frecency scores — independent of the order in which the servers sit in the
map (the flushed permutation `l₂` loads back to a permutation of `l₁`). -/
theorem C5_flush_load_roundtrip (servers_dir : String) (l₁ l₂ : Store)
    (hnodup : (storeNames l₁).Nodup) (hperm : l₁.Perm l₂)
    (hdir : ∀ s ∈ l₁, s.dir = servers_dir ++ "/" ++ s.name) :
    ∃ m, load servers_dir (FileContent.parsed (serializeServers l₂)) = OpResult.ok m ∧
      m.Perm l₁ := by
  refine ⟨deserializeServers servers_dir (serializeServers l₂), rfl, ?_⟩
  have hn₂ : (storeNames l₂).Nodup := (hperm.map Server.name).nodup_iff.mp hnodup
  have hp₂ : (l₂.insertionSort serverNameLE).Perm l₂ := List.perm_insertionSort _ _
  have hraw : (((l₂.insertionSort serverNameLE).map Server.into_raw).map RawServer.name).Nodup := by
    rw [List.map_map]
    exact (hp₂.map Server.name).nodup_iff.mpr hn₂
  have hdes : deserializeServers servers_dir (serializeServers l₂)
      = ((l₂.insertionSort serverNameLE).map Server.into_raw).map
          (Server.from_raw servers_dir) := by
    unfold serializeServers
    exact deserialize_eq_map servers_dir _ hraw
  rw [hdes, List.map_map]
  have hid : ∀ s ∈ l₂.insertionSort serverNameLE,
      (Server.from_raw servers_dir ∘ Server.into_raw) s = id s := by
    intro s hs
    have hsl : s ∈ l₁ := hperm.symm.subset (hp₂.subset hs)
    have hd := hdir s hsl
    cases s with
    | mk nm dr cmd fre =>
      simp only [Function.comp, Server.from_raw, Server.into_raw, id]
      simp only [Server.name] at hd
      rw [← hd]
  rw [List.map_congr_left hid, List.map_id]
  exact hp₂.trans hperm.symm

/-- C5 witness: the theorem applied to a two-server store and its swap. -/
theorem C5_flush_load_roundtrip_witness :
    (storeNames [Server.new ("d") ("alpha") ("ca"), Server.new ("d") ("beta") ("cb")]).Nodup ∧
    ([Server.new ("d") ("alpha") ("ca"), Server.new ("d") ("beta") ("cb")].Perm
      [Server.new ("d") ("beta") ("cb"), Server.new ("d") ("alpha") ("ca")]) ∧
    (∃ m, load ("d") (FileContent.parsed (serializeServers
        [Server.new ("d") ("beta") ("cb"), Server.new ("d") ("alpha") ("ca")]))
          = OpResult.ok m ∧
      m.Perm [Server.new ("d") ("alpha") ("ca"), Server.new ("d") ("beta") ("cb")]) :=
  ⟨by decide,
   List.Perm.swap (Server.new ("d") ("beta") ("cb")) (Server.new ("d") ("alpha") ("ca")) [],
   C5_flush_load_roundtrip ("d")
    [Server.new ("d") ("alpha") ("ca"), Server.new ("d") ("beta") ("cb")]
    [Server.new ("d") ("beta") ("cb"), Server.new ("d") ("alpha") ("ca")]
    (by decide)
    (List.Perm.swap (Server.new ("d") ("beta") ("cb")) (Server.new ("d") ("alpha") ("ca")) [])
    (by
      intro s hs
      rcases List.mem_cons.mp hs with rfl | hs2
      · rfl
      · rcases List.mem_cons.mp hs2 with rfl | hs3
        · rfl
        · exact absurd hs3 (List.not_mem_nil s))⟩

/-- C6: serialization is deterministic in the server set: stores holding the
same servers in different orders produce identical serialized record lists
(hence byte-identical JSON), listed in lexicographic order by name. -/
theorem C6_serialization_deterministic_lexicographic (l₁ l₂ : Store)
    (hnodup : (storeNames l₁).Nodup) (hperm : l₁.Perm l₂) :
    serializeServers l₁ = serializeServers l₂ ∧
    (serializeServers l₁).Pairwise (fun a b : RawServer => a.name ≤ b.name) :=
  ⟨serialize_eq_of_perm l₁ l₂ hnodup hperm, serialize_sorted l₁⟩

/-- C6 witness: the theorem applied to a two-server store and its swap. -/
theorem C6_serialization_deterministic_lexicographic_witness :
    (storeNames [Server.new ("d") ("alpha") ("ca"), Server.new ("d") ("beta") ("cb")]).Nodup ∧
    ([Server.new ("d") ("alpha") ("ca"), Server.new ("d") ("beta") ("cb")].Perm
      [Server.new ("d") ("beta") ("cb"), Server.new ("d") ("alpha") ("ca")]) ∧
    (serializeServers [Server.new ("d") ("alpha") ("ca"), Server.new ("d") ("beta") ("cb")] =
        serializeServers [Server.new ("d") ("beta") ("cb"), Server.new ("d") ("alpha") ("ca")] ∧
      (serializeServers [Server.new ("d") ("alpha") ("ca"),
        Server.new ("d") ("beta") ("cb")]).Pairwise
          (fun a b : RawServer => a.name ≤ b.name)) :=
  ⟨by decide,
   List.Perm.swap (Server.new ("d") ("beta") ("cb")) (Server.new ("d") ("alpha") ("ca")) [],
   C6_serialization_deterministic_lexicographic
    [Server.new ("d") ("alpha") ("ca"), Server.new ("d") ("beta") ("cb")]
    [Server.new ("d") ("beta") ("cb"), Server.new ("d") ("alpha") ("ca")]
    (by decide)
    (List.Perm.swap (Server.new ("d") ("beta") ("cb")) (Server.new ("d") ("alpha") ("ca")) [])⟩

/-- C8: for a present server, `start_server` flushes the updated frecency
before invoking the run action; when execution fails the run action reports
`RunScript`, and the flushed update stands regardless of the run outcome (the
event trace does not depend on the executor). -/
theorem C8_flush_precedes_run_and_no_rollback (exec : String → String → Option Int)
    (store : Store) (server_name : String) (now_micros : ℕ) (server : Server)
    (h : get_one store server_name = some server) :
    ∃ new_store s',
      (start_server exec store server_name now_micros).result = OpResult.ok new_store ∧
      get_one new_store server_name = some s' ∧
      s'.frecency = frecencyUpdate server.frecency ((now_micros : ℝ) * DECAY) ∧
      (start_server exec store server_name now_micros).events =
        [Event.flushed (serializeServers new_store), Event.ran s'.start_command s'.dir] ∧
      (exec s'.start_command s'.dir = none →
        (start_server exec store server_name now_micros).runResult =
          some (Except.error (ApplicationError.RunScript s'.start_command))) ∧
      (∀ exec2 : String → String → Option Int,
        (start_server exec2 store server_name now_micros).events =
          (start_server exec store server_name now_micros).events) := by
  refine ⟨frecencyStore store server_name now_micros,
    { server with frecency := frecencyUpdate server.frecency ((now_micros : ℝ) * DECAY) },
    ?_, get_one_frecencyStore store server_name now_micros server h, rfl, ?_, ?_, ?_⟩
  · rw [start_server_of_get_one exec store server_name now_micros server h]
  · rw [start_server_of_get_one exec store server_name now_micros server h]
  · intro hfail
    rw [start_server_of_get_one exec store server_name now_micros server h]
    show some (Server.start exec _) = _
    unfold Server.start
    rw [hfail]
  · intro exec2
    rw [start_server_of_get_one exec store server_name now_micros server h,
      start_server_of_get_one exec2 store server_name now_micros server h]

/-- C8 witness: the theorem applied to a one-server store with a failing
executor. -/
theorem C8_flush_precedes_run_and_no_rollback_witness :
    get_one [Server.new ("d") ("alpha") ("ca")] ("alpha")
        = some (Server.new ("d") ("alpha") ("ca")) ∧
    (∃ new_store s',
      (start_server (fun _ _ => none) [Server.new ("d") ("alpha") ("ca")]
        ("alpha") 5).result = OpResult.ok new_store ∧
      get_one new_store ("alpha") = some s' ∧
      s'.frecency = frecencyUpdate (Server.new ("d") ("alpha") ("ca")).frecency
        (((5 : ℕ) : ℝ) * DECAY) ∧
      (start_server (fun _ _ => none) [Server.new ("d") ("alpha") ("ca")]
        ("alpha") 5).events =
        [Event.flushed (serializeServers new_store), Event.ran s'.start_command s'.dir] ∧
      ((fun _ _ => (none : Option Int)) s'.start_command s'.dir = none →
        (start_server (fun _ _ => none) [Server.new ("d") ("alpha") ("ca")]
          ("alpha") 5).runResult =
          some (Except.error (ApplicationError.RunScript s'.start_command))) ∧
      (∀ exec2 : String → String → Option Int,
        (start_server exec2 [Server.new ("d") ("alpha") ("ca")] ("alpha") 5).events =
          (start_server (fun _ _ => none) [Server.new ("d") ("alpha") ("ca")]
            ("alpha") 5).events)) :=
  ⟨rfl, C8_flush_precedes_run_and_no_rollback (fun _ _ => none)
    [Server.new ("d") ("alpha") ("ca")] ("alpha") 5 (Server.new ("d") ("alpha") ("ca")) rfl⟩

/-- C9: `remove_server` always flushes the resulting collection; removing an
absent name is a no-op success, not an error, and removing a present name
(under the map's distinct-keys invariant) deletes exactly that entry. -/
theorem C9_remove_server_idempotent (store : Store) (server : Server) :
    ∃ new_store,
      (remove_server store server).result = OpResult.ok new_store ∧
      (remove_server store server).writes = [serializeServers new_store] ∧
      (containsName store server.name = false → new_store = store) ∧
      ((storeNames store).Nodup →
        ∀ t ∈ store, t.name = server.name →
          new_store.length + 1 = store.length ∧
          (∀ u, u ∈ new_store ↔ u ∈ store ∧ u.name ≠ server.name)) := by
  refine ⟨store.filter (fun t => !(t.name == server.name)), rfl, rfl, ?_, ?_⟩
  · intro hc
    exact filter_eq_self_of_not_contains store server.name hc
  · intro hnodup t ht htn
    refine ⟨filter_length_of_mem server.name store hnodup t ht htn, ?_⟩
    intro u
    simp [List.mem_filter]

/-- C9 witness: the theorem applied to a concrete one-server store. -/
theorem C9_remove_server_idempotent_witness :
    ∃ new_store,
      (remove_server [Server.new ("d") ("alpha") ("ca")]
        (Server.new ("d") ("alpha") ("ca"))).result = OpResult.ok new_store ∧
      (remove_server [Server.new ("d") ("alpha") ("ca")]
        (Server.new ("d") ("alpha") ("ca"))).writes = [serializeServers new_store] ∧
      (containsName [Server.new ("d") ("alpha") ("ca")]
          (Server.new ("d") ("alpha") ("ca")).name = false →
        new_store = [Server.new ("d") ("alpha") ("ca")]) ∧
      ((storeNames [Server.new ("d") ("alpha") ("ca")]).Nodup →
        ∀ t ∈ [Server.new ("d") ("alpha") ("ca")],
          t.name = (Server.new ("d") ("alpha") ("ca")).name →
          new_store.length + 1 = [Server.new ("d") ("alpha") ("ca")].length ∧
          (∀ u, u ∈ new_store ↔ u ∈ [Server.new ("d") ("alpha") ("ca")] ∧
            u.name ≠ (Server.new ("d") ("alpha") ("ca")).name)) :=
  C9_remove_server_idempotent [Server.new ("d") ("alpha") ("ca")]
    (Server.new ("d") ("alpha") ("ca"))

/-- C10: every mutating store operation takes `&self` and mutates only an
internal clone that it flushes, so the in-memory receiver is unchanged and
`get_one`/`get_all` on it still observe the pre-mutation state. -/
theorem C10_mutating_ops_preserve_receiver (servers_dir : String) (store : Store)
    (project_name start_command server_name q : String) (server : Server)
    (exec : String → String → Option Int) (now_micros : ℕ) :
    (add_server servers_dir store project_name start_command).receiver = store ∧
    (set_server_start_command store server_name start_command).receiver = store ∧
    (start_server exec store server_name now_micros).receiver = store ∧
    (remove_server store server).receiver = store ∧
    get_one ((add_server servers_dir store project_name start_command).receiver) q
      = get_one store q ∧
    get_one ((set_server_start_command store server_name start_command).receiver) q
      = get_one store q ∧
    get_one ((start_server exec store server_name now_micros).receiver) q
      = get_one store q ∧
    get_one ((remove_server store server).receiver) q = get_one store q ∧
    get_all ((add_server servers_dir store project_name start_command).receiver)
      = get_all store ∧
    get_all ((set_server_start_command store server_name start_command).receiver)
      = get_all store ∧
    get_all ((start_server exec store server_name now_micros).receiver) = get_all store ∧
    get_all ((remove_server store server).receiver) = get_all store := by
  have h1 : (set_server_start_command store server_name start_command).receiver = store :=
    set_server_start_command_receiver store server_name start_command
  have h2 : (start_server exec store server_name now_micros).receiver = store :=
    start_server_receiver exec store server_name now_micros
  refine ⟨rfl, h1, h2, rfl, rfl, ?_, ?_, rfl, rfl, ?_, ?_, rfl⟩
  · rw [h1]
  · rw [h2]
  · rw [h1]
  · rw [h2]

end ServerRoom
